import Mathlib

/-!
Verification development for the external scanner of a tree-sitter grammar
(shell/Python hybrid language).  The C source (src/src/scanner.c) is shallowly
embedded: the lexer becomes an explicit record over a list of remaining
characters, the persistent scanner state becomes lists of indent widths and
delimiter flag bytes, and every loop of the C code becomes a recursive
function over the remaining input.
-/

namespace XonshSpec

/-- Convert a string literal to the character list used by the embedding. -/
def strL (s : String) : List Char := s.data

/-- True when the head of the list satisfies the predicate (false on empty). -/
def headIs (p : Char → Bool) : List Char → Bool
  | [] => false
  | c :: _ => p c

/-- is_identifier_start from the C source. -/
def isIdentStart (c : Char) : Bool :=
  ('a' ≤ c && c ≤ 'z') || ('A' ≤ c && c ≤ 'Z') || c = '_'

/-- is_identifier_char from the C source. -/
def isIdentChar (c : Char) : Bool :=
  isIdentStart c || ('0' ≤ c && c ≤ '9')

/-- is_digit from the C source. -/
def isDigitCh (c : Char) : Bool := '0' ≤ c && c ≤ '9'

/-- is_whitespace from the C source (space or tab, no newline). -/
def isWs (c : Char) : Bool := c = ' ' || c = '\t'

/-- ASCII isalnum as used by the keyword boundary checks. -/
def isAlnumAscii (c : Char) : Bool :=
  ('a' ≤ c && c ≤ 'z') || ('A' ≤ c && c ≤ 'Z') || ('0' ≤ c && c ≤ '9')

/-- python_keywords table from the C source. -/
def pythonKeywords : List String :=
  ["def", "class", "if", "elif", "else", "for", "while", "try", "except",
   "finally", "with", "import", "from", "return", "yield", "raise", "pass",
   "break", "continue", "del", "global", "nonlocal", "assert", "lambda",
   "async", "await", "match", "case", "type", "xontrib"]

/-- is_python_keyword from the C source. -/
def isPythonKeyword (ident : List Char) : Bool :=
  pythonKeywords.any (fun k => k.data == ident)

/-- shell_commands table from the C source. -/
def shellCommands : List String :=
  ["cd", "ls", "pwd", "echo", "cat", "cp", "mv", "rm", "mkdir", "rmdir",
   "touch", "chmod", "chown", "ln", "head", "tail", "less", "more",
   "grep", "find", "sed", "awk", "sort", "uniq", "wc", "cut", "tr", "xargs",
   "make", "cmake", "ninja", "gradle", "mvn", "ant", "meson",
   "npm", "yarn", "pnpm", "pip", "pip3", "cargo", "go", "gem", "composer",
   "git", "svn", "hg", "bzr",
   "docker", "podman", "kubectl", "helm", "docker-compose",
   "curl", "wget", "ssh", "scp", "rsync", "ping", "nc", "netstat",
   "tar", "zip", "unzip", "gzip", "gunzip", "xz", "bzip2",
   "sudo", "su", "ps", "top", "htop", "kill", "killall", "df", "du", "mount",
   "gcc", "g++", "clang", "clang++", "rustc", "javac", "python", "python3",
   "vi", "vim", "nvim", "nano", "emacs", "code",
   "xpip", "completer", "history", "replay", "trace", "timeit"]

/-- is_shell_command from the C source. -/
def isShellCommand (ident : List Char) : Bool :=
  shellCommands.any (fun k => k.data == ident)

/-! Delimiter: one byte of packed flags, exactly as the C Delimiter struct. -/

def flagSingleQuote : Nat := 1
def flagDoubleQuote : Nat := 2
def flagBackQuote : Nat := 4
def flagRaw : Nat := 8
def flagFormat : Nat := 16
def flagTriple : Nat := 32
def flagBytes : Nat := 64

/-- is_format on a delimiter flag byte. -/
def isFormatD (d : Nat) : Bool := d &&& flagFormat != 0

/-- is_raw on a delimiter flag byte. -/
def isRawD (d : Nat) : Bool := d &&& flagRaw != 0

/-- is_triple on a delimiter flag byte. -/
def isTripleD (d : Nat) : Bool := d &&& flagTriple != 0

/-- is_bytes on a delimiter flag byte. -/
def isBytesD (d : Nat) : Bool := d &&& flagBytes != 0

/-- end_character on a delimiter flag byte; 0 encoded as none. -/
def endCharD (d : Nat) : Option Char :=
  if d &&& flagSingleQuote != 0 then some '\'' else
  if d &&& flagDoubleQuote != 0 then some '"' else
  if d &&& flagBackQuote != 0 then some '`' else none

/-- set_end_character on a delimiter flag byte. -/
def setEndCharD (d : Nat) (c : Char) : Nat :=
  if c = '\'' then d ||| flagSingleQuote
  else if c = '"' then d ||| flagDoubleQuote
  else if c = '`' then d ||| flagBackQuote
  else d

/-! Persistent scanner state (struct Scanner). Stack tops are at the END of
the lists, matching the array push/pop/back operations of the C code.  The
indent stack of the source is an array of 16-bit unsigned entries; the push
in layoutEmit stores each width reduced modulo 2 to the 16, so every value
that ever enters the list is below 65536, and delimiters are single flag
bytes. -/

structure Scanner where
  indents : List Nat
  delimiters : List Nat
  insideFString : Bool
deriving Repr, DecidableEq

/-- The state produced by scanner create (deserialize of an empty buffer). -/
def initScanner : Scanner := ⟨[0], [], false⟩

/-! Lexer interface: remaining input, absolute position of the lookahead,
the marked token end, and the position of the first non-skipped advance
(token start tracking). -/

structure Lx where
  rest : List Char
  pos : Nat
  marked : Nat
  firstAdv : Option Nat
deriving Repr, DecidableEq

/-- lexer advance with skip=false. -/
def adv (l : Lx) : Lx :=
  match l.rest with
  | [] => l
  | _ :: t =>
    { l with rest := t, pos := l.pos + 1,
             firstAdv := match l.firstAdv with
                         | none => some l.pos
                         | some p => some p }

/-- lexer advance with skip=true. -/
def skp (l : Lx) : Lx :=
  match l.rest with
  | [] => l
  | _ :: t => { l with rest := t, pos := l.pos + 1 }

/-- mark_end. -/
def mark (l : Lx) : Lx := { l with marked := l.pos }

/-- Build a fresh lexer on an input. -/
def mkLx (input : List Char) : Lx := ⟨input, 0, 0, none⟩

/-- Move a lexer to a suffix of its remaining input that a peeking routine
stopped at, accounting position and first-advance bookkeeping. -/
def lxTo (l : Lx) (r : List Char) : Lx :=
  { l with rest := r, pos := l.pos + (l.rest.length - r.length),
           firstAdv :=
             if r.length < l.rest.length then
               (match l.firstAdv with | none => some l.pos | some p => some p)
             else l.firstAdv }

/-! Token kinds (enum TokenType). Only the kinds the scanner can emit are
constructors; the signal-only kinds live in the valid-symbol record. -/

inductive TokenType where
  | NEWLINE | INDENT | DEDENT
  | STRING_START | STRING_CONTENT | ESCAPE_INTERPOLATION | STRING_END
  | SUBPROCESS_START
  | LOGICAL_AND | LOGICAL_OR | BACKGROUND_AMP
  | KEYWORD_AND | KEYWORD_OR
  | SUBPROCESS_MACRO_START | BLOCK_MACRO_START | PATH_PREF
deriving Repr, DecidableEq

/-- The valid_symbols vector, one flag for each token kind the parser knows. -/
structure Valid where
  newline : Bool
  indent : Bool
  dedent : Bool
  stringStart : Bool
  stringContent : Bool
  escapeInterpolation : Bool
  stringEnd : Bool
  comment : Bool
  closeParen : Bool
  closeBracket : Bool
  closeBrace : Bool
  exceptTok : Bool
  subprocessStart : Bool
  logicalAnd : Bool
  logicalOr : Bool
  backgroundAmp : Bool
  keywordAnd : Bool
  keywordOr : Bool
  subprocessMacroStart : Bool
  blockMacroStart : Bool
  pathPref : Bool
deriving Repr, DecidableEq

/-- The all-false valid vector, for building concrete test vectors. -/
def vNone : Valid :=
  ⟨false, false, false, false, false, false, false, false, false, false, false,
   false, false, false, false, false, false, false, false, false, false⟩

/-- error_recovery_mode: STRING_CONTENT and INDENT simultaneously valid. -/
def errMode (v : Valid) : Bool := v.stringContent && v.indent

/-- within_brackets: any closing bracket token valid. -/
def withinBrackets (v : Valid) : Bool := v.closeBrace || v.closeParen || v.closeBracket

/-! Subprocess detection: DetectResult and the rest-of-line signal scan. -/

inductive DetectResult where
  | NONE | SUBPROCESS | SUBPROCESS_MACRO | STRING | BLOCK_MACRO | PATH_PRE
deriving Repr, DecidableEq

/-- The boolean signals accumulated by the rest-of-line scan of
detect_subprocess_line. -/
structure ScanFlags where
  hasFlag : Bool
  hasPipe : Bool
  hasRedirect : Bool
  hasAssignment : Bool
  hasCallParens : Bool
  hasSubscript : Bool
  hasAttribute : Bool
  hasComparison : Bool
  hasEnvArg : Bool
  hasMacroCall : Bool
  hasSubMacroSig : Bool
deriving Repr, DecidableEq

/-- All-false signal record (initial values of the C locals). -/
def flags0 : ScanFlags :=
  ⟨false, false, false, false, false, false, false, false, false, false, false⟩

/-- Auxiliary state of the rest-of-line scan loop. -/
structure ScanAux where
  inString : Bool
  stringChar : Char
  prevIdent : Bool
  prevSpace : Bool
  seenShell : Bool
  prevFlag : Bool
  depth : Nat
deriving Repr, DecidableEq

/-- Initial auxiliary state given the first-identifier length and whether the
first identifier is a known shell command. -/
def aux0 (identNonEmpty : Bool) (known : Bool) : ScanAux :=
  ⟨false, ' ', identNonEmpty, false, known, false, 0⟩

theorem length_tail_le (l : List Char) : l.tail.length ≤ l.length := by
  cases l <;> simp

theorem length_dropWhile_le (p : Char → Bool) (l : List Char) :
    (l.dropWhile p).length ≤ l.length := by
  induction l with
  | nil => simp [List.dropWhile]
  | cons c t ih =>
    by_cases h : p c
    · simp [List.dropWhile, h]; exact Nat.le_succ_of_le ih
    · simp [List.dropWhile, h]

/-- One iteration of the rest-of-line scan loop of detect_subprocess_line
(the while loop that walks to end of line collecting shell/Python signals).
The continuation k receives the updated signals, auxiliary state, and the
remaining characters; every branch passes k at least one character fewer. -/
def restScanStep (k : ScanFlags → ScanAux → List Char → ScanFlags × List Char)
    (fl : ScanFlags) (st : ScanAux) : List Char → ScanFlags × List Char
  | [] => (fl, [])
  | c :: cs =>
    if c = '\n' then (fl, c :: cs)
    else if !st.inString && (c = '"' || c = '\'') then
      k fl { st with inString := true, stringChar := c, prevIdent := false } cs
    else if st.inString then
      if c = '\\' then
        k fl st cs.tail
      else if c = st.stringChar then
        k fl { st with inString := false } cs
      else
        k fl st cs
    else if c = '-' then
      if headIs (fun d => d = '-') cs then
        if headIs isIdentStart cs.tail then
          k { fl with hasFlag := true }
            { st with seenShell := true, prevFlag := true, prevIdent := false } cs.tail
        else
          k fl { st with prevIdent := false } cs.tail
      else if headIs isIdentStart cs then
        k { fl with hasFlag := true }
          { st with seenShell := true, prevFlag := true, prevIdent := false } cs
      else
        k fl { st with prevIdent := false } cs
    else if c = '|' then
      if headIs (fun d => d = '|') cs then
        k { fl with hasPipe := true }
          { st with seenShell := true, prevIdent := false } cs.tail
      else if !(headIs (fun d => d = '=') cs) then
        k { fl with hasPipe := true }
          { st with seenShell := true, prevIdent := false } cs
      else
        k fl { st with prevIdent := false } cs
    else if c = '&' then
      if headIs (fun d => d = '&') cs then
        k { fl with hasPipe := true }
          { st with seenShell := true, prevIdent := false } cs.tail
      else
        let cs2 := cs.dropWhile isWs
        if cs2 = [] || headIs (fun d => d = '\n') cs2 then
          k { fl with hasPipe := true }
            { st with seenShell := true, prevIdent := false } cs2
        else
          k fl { st with prevIdent := false } cs2
    else if c = '>' then
      if headIs (fun d => d = '=') cs then
        k { fl with hasComparison := true } { st with prevIdent := false } cs
      else
        k { fl with hasRedirect := true }
          { st with seenShell := true, prevIdent := false } cs
    else if c = '<' then
      if headIs (fun d => d = '=') cs then
        k { fl with hasComparison := true } { st with prevIdent := false } cs
      else if !(headIs (fun d => d = '<') cs) then
        k { fl with hasRedirect := true }
          { st with seenShell := true, prevIdent := false } cs
      else
        k fl { st with prevIdent := false } cs
    else if c = '=' then
      if headIs (fun d => d = '=') cs && st.depth = 0 then
        k { fl with hasComparison := true }
          { st with prevFlag := false, prevIdent := false } cs.tail
      else if st.prevFlag then
        k fl { st with prevIdent := false } cs
      else if st.depth = 0 then
        k { fl with hasAssignment := true }
          { st with prevFlag := false, prevIdent := false } cs
      else
        k fl { st with prevIdent := false } cs
    else if c = '!' then
      if headIs (fun d => d = '=') cs && st.depth = 0 then
        k { fl with hasComparison := true } { st with prevIdent := false } cs
      else if st.prevIdent && headIs (fun d => d = '(') cs then
        k { fl with hasMacroCall := true } { st with prevIdent := false } cs
      else if st.prevIdent && headIs isWs cs then
        k { fl with hasSubMacroSig := true } { st with prevIdent := false } cs
      else
        k fl { st with prevIdent := false } cs
    else if c = ':' then
      if headIs (fun d => d = '=') cs && st.depth = 0 then
        k { fl with hasComparison := true } { st with prevIdent := false } cs
      else
        k fl { st with prevIdent := false } cs
    else if c = '(' && st.depth > 0 then
      k fl { st with depth := st.depth + 1, prevIdent := false } cs
    else if c = ')' && st.depth > 0 then
      k fl { st with depth := st.depth - 1, prevIdent := false } cs
    else if c = '(' && st.prevIdent && !st.seenShell then
      k { fl with hasCallParens := true } { st with prevIdent := false } cs
    else if c = '[' && st.prevIdent && !st.seenShell then
      k { fl with hasSubscript := true } { st with prevIdent := false } cs
    else if c = '.' && st.prevIdent && !st.seenShell then
      k { fl with hasAttribute := true } { st with prevIdent := false } cs
    else if isIdentStart c then
      k fl { st with prevIdent := true } (cs.dropWhile isIdentChar)
    else if c = '$' && st.prevSpace then
      if headIs isIdentStart cs || headIs (fun d => d = '(' || d = '[') cs then
        k { fl with hasEnvArg := true }
          { st with seenShell := true, prevIdent := false, prevSpace := false } cs
      else
        k fl { st with prevIdent := false, prevSpace := false } cs
    else if c = '@' && st.prevSpace then
      if headIs (fun d => d = '$') cs then
        if headIs (fun d => d = '(') cs.tail then
          k { fl with hasEnvArg := true }
            { st with seenShell := true, prevIdent := false, prevSpace := false } cs.tail
        else
          k fl { st with prevIdent := false, prevSpace := false } cs.tail
      else if headIs (fun d => d = '(') cs then
        k { fl with hasEnvArg := true }
          { st with seenShell := true, depth := 1, prevIdent := false, prevSpace := false }
          cs.tail
      else
        k fl { st with prevIdent := false, prevSpace := false } cs
    else if isWs c then
      k fl
        { st with prevIdent := false, prevSpace := true, prevFlag := false } cs
    else
      k fl { st with prevIdent := false, prevSpace := false } cs

/-- The rest-of-line scan loop, driven by fuel.  Every iteration consumes at
least one character, so with fuel at least the input length the zero-fuel
case sees only the empty list, where it agrees with the empty-input case of
the step. -/
def restScanF (fl : ScanFlags) (st : ScanAux) : Nat → List Char → ScanFlags × List Char
  | 0, cs => (fl, cs)
  | fuel + 1, cs => restScanStep (fun fl2 st2 cs2 => restScanF fl2 st2 fuel cs2) fl st cs

/-- The rest-of-line scan on a whole line suffix. -/
def restScan (fl : ScanFlags) (st : ScanAux) (cs : List Char) : ScanFlags × List Char :=
  restScanF fl st cs.length cs

/-- The final decision block of detect_subprocess_line: strong Python signals
beat shell signals, shell signals beat the allow-list lookup, and the
allow-list decides the remaining lines.  The second argument is the value of
the C expression testing that a first identifier exists and is a known shell
command. -/
def detectDecision (fl : ScanFlags) (identKnown : Bool) : DetectResult :=
  if fl.hasAssignment || fl.hasComparison || fl.hasCallParens ||
     fl.hasSubscript || fl.hasAttribute || fl.hasMacroCall then
    .NONE
  else if fl.hasFlag || fl.hasPipe || fl.hasRedirect || fl.hasEnvArg ||
          fl.hasSubMacroSig then
    .SUBPROCESS
  else if identKnown then
    .SUBPROCESS
  else
    .NONE

/-- Strong-Python-signal predicate, in the words of the specification. -/
def strongPythonSignal (fl : ScanFlags) : Bool :=
  fl.hasAssignment || fl.hasComparison || fl.hasCallParens ||
  fl.hasSubscript || fl.hasAttribute || fl.hasMacroCall

/-- Shell-signal predicate, in the words of the specification. -/
def shellSignal (fl : ScanFlags) : Bool :=
  fl.hasFlag || fl.hasPipe || fl.hasRedirect || fl.hasEnvArg || fl.hasSubMacroSig

/-- Return value of detect_subprocess_line: classification, remaining line
suffix at the point the detector stopped, the vestigial macro-end counter,
and the string delimiter out-parameter. -/
structure DetectRet where
  result : DetectResult
  rest : List Char
  subMacEnd : Nat
  strDelim : Nat
deriving Repr, DecidableEq

/-- Build a plain detection result. -/
def mkRet (res : DetectResult) (r : List Char) : DetectRet := ⟨res, r, 0, 0⟩

/-- Delimiter flags from string prefix letters (loop at the DETECT_STRING
return of the C source). -/
def stringPrefixFlags (ident : List Char) : Nat :=
  ident.foldl (fun d c =>
    if c = 'f' || c = 'F' then d ||| flagFormat
    else if c = 'r' || c = 'R' then d ||| flagRaw
    else if c = 'b' || c = 'B' then d ||| flagBytes
    else d) 0

/-- Every character is one of the string prefix letters f r b u (either case). -/
def isStringPrefixChars (ident : List Char) : Bool :=
  ident.all (fun c => c = 'f' || c = 'F' || c = 'r' || c = 'R' ||
                      c = 'b' || c = 'B' || c = 'u' || c = 'U')

/-- Path prefix identifier shape: p or P optionally followed by f F r R. -/
def isPathPrefixShape (ident : List Char) : Bool :=
  match ident with
  | [a] => a = 'p' || a = 'P'
  | [a, b] => (a = 'p' || a = 'P') && (b = 'f' || b = 'F' || b = 'r' || b = 'R')
  | _ => false

/-- Tail of detect_subprocess_line after the first-identifier analysis: the
known-command lookup, the rest-of-line scan, and the decision block. -/
def detectRest (ident : List Char) (r : List Char) : DetectRet :=
  let known := !ident.isEmpty && isShellCommand ident
  let pr := restScan flags0 (aux0 (!ident.isEmpty) known) r
  ⟨detectDecision pr.1 known, pr.2, 0, 0⟩

/-- Comma-only-line special case of detect_subprocess_line (runs only when no
first identifier was read). -/
def detectComma (r : List Char) : DetectRet :=
  if headIs (fun c => c = ',') r then
    let a := r.dropWhile (fun c => c = ',')
    let b := a.dropWhile isWs
    if b = [] || headIs (fun c => c = '\n') b then mkRet .SUBPROCESS b
    else detectRest [] b
  else detectRest [] r

/-- First-identifier analysis of detect_subprocess_line: optional leading
dollar, identifier read (at most 63 characters), string/path prefix checks,
help-expression probe, Python keyword check, and the macro probe. -/
def detectIdent (r0 : List Char) (p0 : Nat) : DetectRet :=
  let r := if headIs (fun c => c = '$') r0 then r0.tail else r0
  let p := if headIs (fun c => c = '$') r0 then p0 + 1 else p0
  if headIs isIdentStart r then
    let ident := (r.takeWhile isIdentChar).take 63
    let r1 := r.drop ident.length
    let p1 := p + ident.length
    if 1 ≤ ident.length && ident.length ≤ 3 &&
       headIs (fun c => c = '"' || c = '\'') r1 && isStringPrefixChars ident then
      { result := .STRING, rest := r1, subMacEnd := 0,
        strDelim := stringPrefixFlags ident }
    else if 1 ≤ ident.length && ident.length ≤ 3 &&
            headIs (fun c => c = '"' || c = '\'') r1 && isPathPrefixShape ident then
      mkRet .PATH_PRE r1
    else
      let r2 := if headIs (fun c => c = '?') r1 then
                  let a := r1.tail
                  let a2 := if headIs (fun c => c = '?') a then a.tail else a
                  a2.dropWhile isWs
                else r1
      if headIs (fun c => c = '?') r1 && (r2 = [] || headIs (fun c => c = '\n') r2) then
        mkRet .NONE r2
      else if isPythonKeyword ident &&
              !(ident = strL "with" && headIs (fun c => c = '!') r2) then
        mkRet .NONE r2
      else if headIs (fun c => c = '!') r2 then
        let r3 := r2.tail
        if headIs isWs r3 then
          if ident = strL "with" then mkRet .BLOCK_MACRO r3
          else
            let k := (r3.takeWhile isWs).length
            { result := .SUBPROCESS_MACRO, rest := r3.drop k,
              subMacEnd := p1 + 1 + k, strDelim := 0 }
        else detectRest ident r3
      else detectRest ident r2
  else detectComma r

/-- The at-sign probe of detect_subprocess_line (decorator versus modified
subprocess), entered with the at sign already consumed. -/
def detectAtProbe (r : List Char) : DetectRet :=
  if headIs isIdentStart r then
    let r1 := r.dropWhile isIdentChar
    if headIs (fun c => c = '.' || c = '(') r1 then mkRet .NONE r1
    else if headIs isWs r1 then
      let r2 := r1.dropWhile isWs
      if headIs (fun c => c = '/' || c = '.' || c = '~' || c = '-') r2 then
        mkRet .SUBPROCESS r2
      else if headIs isIdentStart r2 then
        let cmd := (r2.takeWhile isIdentChar).take 63
        let r3 := r2.drop cmd.length
        if isShellCommand cmd then mkRet .SUBPROCESS r3 else mkRet .NONE r3
      else mkRet .NONE r2
    else mkRet .NONE r1
  else mkRet .NONE r

/-- At-sign dispatch of detect_subprocess_line. -/
def detectAt (r : List Char) (p : Nat) : DetectRet :=
  if headIs (fun c => c = '@') r then detectAtProbe r.tail
  else detectIdent r p

/-- Opening-bracket probe (Python list literal). -/
def detectBracket (r : List Char) (p : Nat) : DetectRet :=
  if headIs (fun c => c = '[') r then mkRet .NONE r
  else detectAt r p

/-- Bang probe (explicit uncaptured subprocess syntax). -/
def detectBang (r : List Char) (p : Nat) : DetectRet :=
  if headIs (fun c => c = '!') r then
    let r1 := r.tail
    if headIs (fun c => c = '(' || c = '[') r1 then mkRet .NONE r1
    else detectBracket r1 (p + 1)
  else detectBracket r p

/-- Dollar probe (explicit capture syntax). -/
def detectDollar (r : List Char) (p : Nat) : DetectRet :=
  if headIs (fun c => c = '$') r then
    let r1 := r.tail
    if headIs (fun c => c = '(' || c = '[') r1 then mkRet .NONE r1
    else detectBang r1 (p + 1)
  else detectBang r p

/-- Tilde probe (home path command). -/
def detectTilde (r : List Char) (p : Nat) : DetectRet :=
  if headIs (fun c => c = '~') r then
    let r1 := r.tail
    if headIs (fun c => c = '/') r1 then mkRet .SUBPROCESS r1
    else detectDollar r1 (p + 1)
  else detectDollar r p

/-- Dot probe (relative path command). -/
def detectDot (r : List Char) (p : Nat) : DetectRet :=
  if headIs (fun c => c = '.') r then
    let r1 := r.tail
    if headIs (fun c => c = '/') r1 then mkRet .SUBPROCESS r1
    else detectTilde r1 (p + 1)
  else detectTilde r p

/-- detect_subprocess_line on the raw remaining input: leading whitespace,
the opening probes, the first-identifier analysis, the rest-of-line scan,
and the decision block. -/
def detectTail (r0 : List Char) : DetectRet :=
  let r := r0.dropWhile isWs
  if headIs (fun c => c = '/') r then mkRet .SUBPROCESS r
  else detectDot r 0

/-- detect_subprocess_line on a lexer: marks the entry position (the only
mark_end the detector performs) and peeks ahead. -/
def detect_subprocess_line (l : Lx) : DetectRet × Lx :=
  let l0 := mark l
  let d := detectTail l0.rest
  (d, lxTo l0 d.rest)

/-! The string content scanning loop of scan (the while loop guarded by
STRING_CONTENT being valid with an open delimiter).  The loop reads only the
top delimiter and can pop it (STRING_END) and clear the inside-format flag;
the returned state carries exactly those two components.  The C variable
advanced_once is provably always false when this loop is entered (every path
of the brace-escape block that sets it returns), so the loop is entered with
has_content false and the brace check reduces to the lookahead test. -/

inductive ContentRes where
  | done (tok : Option TokenType) (delimiters : List Nat) (insideF : Bool) (l : Lx)
  | pass (l : Lx)
deriving Repr, DecidableEq

/-- Raw-string backslash handling: step over an escaped quote or backslash
and an optional newline join.  Entered with the backslash consumed. -/
def rawStep (d : Nat) (l : Lx) : Lx :=
  let l1 := if headIs (fun e => endCharD d = some e || e = '\\') l.rest then adv l else l
  if headIs (fun e => e = '\r') l1.rest then
    let l2 := adv l1
    if headIs (fun e => e = '\n') l2.rest then adv l2 else l2
  else if headIs (fun e => e = '\n') l1.rest then adv l1
  else l1

theorem adv_rest_tail (l : Lx) : (adv l).rest = l.rest.tail := by
  rcases h : l.rest with _ | ⟨c, t⟩ <;> simp [adv, h]

theorem skp_rest_tail (l : Lx) : (skp l).rest = l.rest.tail := by
  rcases h : l.rest with _ | ⟨c, t⟩ <;> simp [skp, h]

theorem adv_rest_le (l : Lx) : (adv l).rest.length ≤ l.rest.length := by
  rw [adv_rest_tail]; exact length_tail_le _

theorem skp_rest_le (l : Lx) : (skp l).rest.length ≤ l.rest.length := by
  rw [skp_rest_tail]; exact length_tail_le _

theorem rawStep_rest_le (d : Nat) (l : Lx) : (rawStep d l).rest.length ≤ l.rest.length := by
  unfold rawStep
  dsimp only
  split_ifs <;>
    first
      | exact Nat.le_refl _
      | exact adv_rest_le _
      | exact Nat.le_trans (adv_rest_le _) (adv_rest_le _)
      | exact Nat.le_trans (adv_rest_le _) (Nat.le_trans (adv_rest_le _) (adv_rest_le _))

theorem adv_rest_cons {l : Lx} {c : Char} {t : List Char} (h : l.rest = c :: t) :
    (adv l).rest = t := by
  rw [adv_rest_tail, h]; rfl

theorem mark_rest (l : Lx) : (mark l).rest = l.rest := rfl

theorem tail_dropWhile_lt (p : Char → Bool) (c : Char) (t : List Char) :
    (((c :: t).dropWhile p).tail).length < (c :: t).length := by
  have h1 := length_dropWhile_le p (c :: t)
  cases hdw : (c :: t).dropWhile p with
  | nil => simp
  | cons d ds =>
    rw [hdw] at h1
    simp at h1 ⊢
    omega

/-- One iteration of the content scan loop.  Fixed state: the full delimiter
stack, the inside-format flag, and the flag byte of the top delimiter.  The
continuation k receives has_content and the lexer; every branch passes k at
least one character fewer. -/
def contentLoopStep (delims : List Nat) (insideF : Bool) (d : Nat)
    (k : Bool → Lx → ContentRes) (hc : Bool) (l : Lx) : ContentRes :=
  match l.rest with
  | [] => .pass l
  | c :: _ =>
    if (c = '{' || c = '}') && isFormatD d then
      .done (if hc then some .STRING_CONTENT else none) delims insideF (mark l)
    else if c = '\\' then
      if isRawD d then
        k hc (rawStep d (adv l))
      else if isBytesD d then
        let l1 := adv (mark l)
        if headIs (fun e => e = 'N' || e = 'u' || e = 'U') l1.rest then
          k true (adv (adv l1))
        else
          .done (if hc then some .STRING_CONTENT else none) delims insideF l1
      else
        .done (if hc then some .STRING_CONTENT else none) delims insideF (mark l)
    else if endCharD d = some c then
      if isTripleD d then
        let l1 := adv (mark l)
        if headIs (fun e => endCharD d = some e) l1.rest then
          let l2 := adv l1
          if headIs (fun e => endCharD d = some e) l2.rest then
            if hc then .done (some .STRING_CONTENT) delims insideF l2
            else .done (some .STRING_END) delims.dropLast false (mark (adv l2))
          else .done (some .STRING_CONTENT) delims insideF (mark l2)
        else .done (some .STRING_CONTENT) delims insideF (mark l1)
      else
        if hc then .done (some .STRING_CONTENT) delims insideF (mark l)
        else .done (some .STRING_END) delims.dropLast false (mark (adv l))
    else if c = '\n' && hc && !(isTripleD d) then
      .done none delims insideF l
    else
      k true (adv l)

/-- The content scan loop, driven by fuel: every iteration consumes at least
one character, so with fuel at least the remaining length the zero-fuel case
sees only an exhausted lexer, where it agrees with the end-of-input case of
the step (control falls through to the layout scan). -/
def contentLoopF (delims : List Nat) (insideF : Bool) (d : Nat) :
    Nat → Bool → Lx → ContentRes
  | 0, _, l => .pass l
  | fuel + 1, hc, l =>
    contentLoopStep delims insideF d
      (fun hc2 l2 => contentLoopF delims insideF d fuel hc2 l2) hc l

/-- The content scan loop on a lexer. -/
def contentLoop (delims : List Nat) (insideF : Bool) (d : Nat) (hc : Bool)
    (l : Lx) : ContentRes :=
  contentLoopF delims insideF d l.rest.length hc l

/-- The content stage of scan: gate on STRING_CONTENT validity, an open
delimiter, and not being in error-recovery mode. -/
def contentStage (v : Valid) (s : Scanner) (l : Lx) : ContentRes :=
  if v.stringContent && !s.delimiters.isEmpty && !errMode v then
    contentLoop s.delimiters s.insideFString (s.delimiters.getLastD 0) false l
  else .pass l

/-! Brace escape stage (format string escaped braces). -/

inductive EscRes where
  | done (tok : Option TokenType) (l : Lx)
  | pass
deriving Repr, DecidableEq

/-- The brace-escape block at the top of scan. -/
def escapeStage (v : Valid) (s : Scanner) (l : Lx) : EscRes :=
  if v.escapeInterpolation && !s.delimiters.isEmpty &&
     headIs (fun c => c = '{' || c = '}') l.rest && !errMode v then
    if isFormatD (s.delimiters.getLastD 0) then
      let isLeft := headIs (fun c => c = '{') l.rest
      let l1 := adv (mark l)
      if (headIs (fun c => c = '{') l1.rest && isLeft) ||
         (headIs (fun c => c = '}') l1.rest && !isLeft) then
        .done (some .ESCAPE_INTERPOLATION) (mark (adv l1))
      else
        .done none l1
    else .pass
  else .pass

/-! Layout (whitespace) scan. -/

inductive LoopRes where
  | abort (l : Lx)
  | ok (foundEol : Bool) (indentLen : Nat) (fci : Option Nat) (l : Lx)
deriving Repr, DecidableEq

/-- Move a lexer to a suffix of its remaining input using only skips. -/
def lxToS (l : Lx) (r : List Char) : Lx :=
  { l with rest := r, pos := l.pos + (l.rest.length - r.length) }

/-- Skip to and past the next newline (comment consumption). -/
def skipToEol (l : Lx) : Lx :=
  skp (lxToS l (l.rest.dropWhile (fun c => !(c = '\n'))))

/-- Backslash line continuation step: skip the backslash and an optional
carriage return. -/
def contStep (l : Lx) : Lx :=
  let l1 := skp l
  if headIs (fun e => e = '\r') l1.rest then skp l1 else l1

theorem lxToS_rest (l : Lx) (r : List Char) : (lxToS l r).rest = r := rfl

theorem skipToEol_rest (l : Lx) :
    (skipToEol l).rest = (l.rest.dropWhile (fun c => !(c = '\n'))).tail := by
  unfold skipToEol
  rw [skp_rest_tail, lxToS_rest]

theorem contStep_rest_le (l : Lx) : (contStep l).rest.length ≤ l.rest.tail.length := by
  unfold contStep
  dsimp only
  split
  · rw [skp_rest_tail (skp l), skp_rest_tail l]
    exact length_tail_le _
  · rw [skp_rest_tail l]

/-- One iteration of the layout loop of scan: blank lines, indentation
accounting (tab is 8 columns), comments, and backslash line continuations.
The width accumulator indent_length is a 32-bit unsigned counter in the
source, so each increment is reduced modulo 2 to the 32.  The continuation k
receives found-end-of-line, the indent width, the first comment indent, and
the lexer; every branch passes k at least one character fewer. -/
def layoutLoopStep (v : Valid)
    (k : Bool → Nat → Option Nat → Lx → LoopRes)
    (foundEol : Bool) (indentLen : Nat) (fci : Option Nat) (l : Lx) : LoopRes :=
  match l.rest with
  | [] => .ok true 0 fci l
  | c :: _ =>
    if c = '\n' then k true 0 fci (skp l)
    else if c = ' ' then k foundEol ((indentLen + 1) % 4294967296) fci (skp l)
    else if c = '\r' || c = '\x0c' then k foundEol 0 fci (skp l)
    else if c = '\t' then k foundEol ((indentLen + 8) % 4294967296) fci (skp l)
    else if c = '#' && (v.indent || v.dedent || v.newline || v.exceptTok) then
      if !foundEol then .abort l
      else
        let fci2 := match fci with | none => some indentLen | some x => some x
        k foundEol 0 fci2 (skipToEol l)
    else if c = '\\' then
      let l2 := contStep l
      if l2.rest = [] || headIs (fun e => e = '\n') l2.rest then
        k foundEol indentLen fci (skp l2)
      else .abort l2
    else .ok foundEol indentLen fci l

/-- The layout loop, driven by fuel: every iteration consumes at least one
character, so with fuel at least the remaining length the zero-fuel case
sees only an exhausted lexer, where it agrees with the end-of-input case of
the step. -/
def layoutLoopF (v : Valid) :
    Nat → Bool → Nat → Option Nat → Lx → LoopRes
  | 0, _, _, fci, l => .ok true 0 fci l
  | fuel + 1, foundEol, indentLen, fci, l =>
    layoutLoopStep v (fun fe il fc l2 => layoutLoopF v fuel fe il fc l2)
      foundEol indentLen fci l

/-- The layout loop on a lexer. -/
def layoutLoop (v : Valid) (foundEol : Bool) (indentLen : Nat) (fci : Option Nat)
    (l : Lx) : LoopRes :=
  layoutLoopF v l.rest.length foundEol indentLen fci l

theorem layoutLoopF_succ (v : Valid) (fuel : Nat) (fe : Bool) (il : Nat)
    (fci : Option Nat) (l : Lx) :
    layoutLoopF v (fuel + 1) fe il fci l =
      layoutLoopStep v (fun a b c d => layoutLoopF v fuel a b c d) fe il fci l :=
  rfl

/-! Layout emission against the indent stack. -/

inductive LayoutRes where
  | done (tok : Option TokenType) (indents : List Nat) (l : Lx)
  | pass (fci : Option Nat) (l : Lx)
deriving Repr, DecidableEq

/-- The comparison of first_comment_indent_length (minus one when absent)
with the current indent width. -/
def fciLtCur : Option Nat → Nat → Bool
  | none, _ => true
  | some f, cur => f < cur

/-- The INDENT/DEDENT/NEWLINE emission block of scan.  The indent stack of
the source holds 16-bit unsigned entries, so the push stores the width
reduced modulo 2 to the 16 (the width comparison itself is done on the
unreduced 32-bit value). -/
def layoutEmit (v : Valid) (indents : List Nat) (insideF : Bool)
    (foundEol : Bool) (indentLen : Nat) (fci : Option Nat) (l : Lx) : LayoutRes :=
  if foundEol then
    match indents.getLast? with
    | some cur =>
      if v.indent && indentLen > cur then
        .done (some .INDENT) (indents ++ [indentLen % 65536]) l
      else
        let ntiss := headIs (fun c => c = '"' || c = '\'' || c = '`') l.rest
        if (v.dedent || (!v.newline && !(v.stringStart && ntiss) && !withinBrackets v)) &&
           indentLen < cur && !insideF && fciLtCur fci cur then
          .done (some .DEDENT) indents.dropLast l
        else if v.newline && !errMode v then .done (some .NEWLINE) indents l
        else .pass fci l
    | none =>
      if v.newline && !errMode v then .done (some .NEWLINE) indents l
      else .pass fci l
  else .pass fci l

/-- The whole layout stage: mark the committed position, run the loop, then
the emission block. -/
def layoutStage (v : Valid) (indents : List Nat) (insideF : Bool) (l : Lx) : LayoutRes :=
  match layoutLoop v false 0 none (mark l) with
  | .abort l1 => .done none indents l1
  | .ok fe il fci l1 => layoutEmit v indents insideF fe il fci l1

/-! Operator disambiguation stage. -/

inductive OpRes where
  | done (tok : Option TokenType) (l : Lx)
  | pass
deriving Repr, DecidableEq

/-- The ampersand, pipe, and keyword operator dispatch of scan. -/
def operatorStage (v : Valid) (l : Lx) : OpRes :=
  if (v.logicalAnd || v.logicalOr || v.backgroundAmp) &&
     headIs (fun c => c = '&') l.rest then
    let l1 := adv l
    if headIs (fun c => c = '&') l1.rest then
      if v.logicalAnd then .done (some .LOGICAL_AND) (mark (adv l1))
      else .done none l1
    else if v.backgroundAmp then .done (some .BACKGROUND_AMP) (mark l1)
    else .done none l1
  else if (v.logicalAnd || v.logicalOr || v.backgroundAmp) &&
          headIs (fun c => c = '|') l.rest && v.logicalOr then
    let l1 := adv l
    if headIs (fun c => c = '|') l1.rest then .done (some .LOGICAL_OR) (mark (adv l1))
    else .done none l1
  else if (v.keywordAnd || v.keywordOr) && v.keywordAnd &&
          headIs (fun c => c = 'a') l.rest then
    let l1 := adv l
    if headIs (fun c => c = 'n') l1.rest then
      let l2 := adv l1
      if headIs (fun c => c = 'd') l2.rest then
        let l3 := adv l2
        if !(headIs (fun c => isAlnumAscii c || c = '_') l3.rest) then
          .done (some .KEYWORD_AND) (mark l3)
        else .done none l3
      else .done none l2
    else .done none l1
  else if (v.keywordAnd || v.keywordOr) && v.keywordOr &&
          headIs (fun c => c = 'o') l.rest then
    let l1 := adv l
    if headIs (fun c => c = 'r') l1.rest then
      let l2 := adv l1
      if !(headIs (fun c => isAlnumAscii c || c = '_') l2.rest) then
        .done (some .KEYWORD_OR) (mark l2)
      else .done none l2
    else .done none l1
  else .pass

/-! Subprocess detection dispatch, path prefix, and string start stages. -/

inductive SubRes where
  | done (tok : Option TokenType) (delimiters : List Nat) (insideF : Bool) (l : Lx)
  | pass (l : Lx)
deriving Repr, DecidableEq

/-- Opening quote processing shared by the string-start paths of scan:
records the end character and detects triple quotes. -/
def quoteScan (delim : Nat) (l : Lx) : Nat × Lx :=
  if headIs (fun c => c = '\'') l.rest then
    let d1 := setEndCharD delim '\''
    let l1 := mark (adv l)
    if headIs (fun c => c = '\'') l1.rest then
      let l2 := adv l1
      if headIs (fun c => c = '\'') l2.rest then (d1 ||| flagTriple, mark (adv l2))
      else (d1, l2)
    else (d1, l1)
  else if headIs (fun c => c = '"') l.rest then
    let d1 := setEndCharD delim '"'
    let l1 := mark (adv l)
    if headIs (fun c => c = '"') l1.rest then
      let l2 := adv l1
      if headIs (fun c => c = '"') l2.rest then (d1 ||| flagTriple, mark (adv l2))
      else (d1, l2)
    else (d1, l1)
  else (delim, l)

/-- The subprocess dispatch block of scan: gate, call the detector, and emit
whatever classification matches a valid kind; otherwise fall through with
the detector-advanced lexer. -/
def subprocessStage (v : Valid) (s : Scanner) (fci : Option Nat) (l : Lx) : SubRes :=
  let looksLikeString := headIs (fun c => c = '"' || c = '\'') l.rest
  let check := (v.subprocessStart || v.subprocessMacroStart || v.blockMacroStart) &&
               !withinBrackets v && !errMode v && fci.isNone &&
               !(headIs (fun c => c = '#') l.rest) && !looksLikeString
  if check then
    let dl := detect_subprocess_line l
    let d := dl.1
    let l1 := dl.2
    if d.result = .BLOCK_MACRO && v.blockMacroStart then
      .done (some .BLOCK_MACRO_START) s.delimiters s.insideFString (mark l1)
    else if d.result = .SUBPROCESS_MACRO && v.subprocessMacroStart then
      .done (some .SUBPROCESS_MACRO_START) s.delimiters s.insideFString (mark l1)
    else if d.result = .SUBPROCESS && v.subprocessStart then
      .done (some .SUBPROCESS_START) s.delimiters s.insideFString l1
    else if d.result = .PATH_PRE && v.pathPref then
      .done (some .PATH_PREF) s.delimiters s.insideFString (mark l1)
    else if d.result = .STRING && v.stringStart then
      let q := quoteScan d.strDelim l1
      if (endCharD q.1).isSome then
        .done (some .STRING_START) (s.delimiters ++ [q.1]) (isFormatD q.1) q.2
      else .pass q.2
    else .pass l1
  else .pass l

inductive PathRes where
  | done (tok : Option TokenType) (l : Lx)
  | pass
deriving Repr, DecidableEq

/-- Path prefix detection: p or P, optionally one of f F r R, immediately
followed by a quote. -/
def pathStage (v : Valid) (fci : Option Nat) (l : Lx) : PathRes :=
  if fci.isNone && v.pathPref then
    if headIs (fun c => c = 'p' || c = 'P') l.rest then
      let l1 := adv l
      if headIs (fun c => c = '\'' || c = '"') l1.rest then
        .done (some .PATH_PREF) (mark l1)
      else if headIs (fun c => c = 'f' || c = 'F' || c = 'r' || c = 'R') l1.rest then
        let l2 := adv l1
        if headIs (fun c => c = '\'' || c = '"') l2.rest then
          .done (some .PATH_PREF) (mark l2)
        else .done none l2
      else .done none l1
    else .pass
  else .pass

inductive StrRes where
  | done (tok : Option TokenType) (delimiters : List Nat) (insideF : Bool) (l : Lx)
  | pass
deriving Repr, DecidableEq

/-- One of the string prefix letters (either case). -/
def prefixFlagChar (c : Char) : Bool :=
  c = 'f' || c = 'F' || c = 'r' || c = 'R' || c = 'b' || c = 'B' || c = 'u' || c = 'U'

/-- The string-start stage of scan: consume prefix letters, refuse backticks,
process opening quotes, and push the delimiter. -/
def stringStartStage (v : Valid) (s : Scanner) (fci : Option Nat) (l : Lx) : StrRes :=
  if fci.isNone && v.stringStart then
    let letters := l.rest.takeWhile prefixFlagChar
    let d0 := stringPrefixFlags letters
    let l1 := lxTo l (l.rest.drop letters.length)
    if headIs (fun c => c = '`') l1.rest then
      .done none s.delimiters s.insideFString l1
    else
      let q := quoteScan d0 l1
      if (endCharD q.1).isSome then
        .done (some .STRING_START) (s.delimiters ++ [q.1]) (isFormatD q.1) q.2
      else
        -- both the has-flags check and the final fallthrough of scan return
        -- false here, so the two cases collapse to one failure result
        .done none s.delimiters s.insideFString q.2
  else .pass

/-- The external scanner scan function: the staged dispatcher. -/
def scan (v : Valid) (s : Scanner) (l : Lx) : Option TokenType × Scanner × Lx :=
  match escapeStage v s l with
  | .done t l1 => (t, s, l1)
  | .pass =>
  match contentStage v s l with
  | .done t ds f l1 => (t, { s with delimiters := ds, insideFString := f }, l1)
  | .pass l1 =>
  match layoutStage v s.indents s.insideFString l1 with
  | .done t ind l2 => (t, { s with indents := ind }, l2)
  | .pass fci l2 =>
  match operatorStage v l2 with
  | .done t l3 => (t, s, l3)
  | .pass =>
  match subprocessStage v s fci l2 with
  | .done t ds f l3 => (t, { s with delimiters := ds, insideFString := f }, l3)
  | .pass l3 =>
  match pathStage v fci l3 with
  | .done t l4 => (t, s, l4)
  | .pass =>
  match stringStartStage v s fci l3 with
  | .done t ds f l4 => (t, { s with delimiters := ds, insideFString := f }, l4)
  | .pass => (none, s, l3)

/-! Serialization. -/

/-- The indent-entry write loop of serialize: one byte per width, stopping at
the 1024-byte serialization buffer limit. -/
def serializeIndentLoop : List Nat → Nat → List Nat
  | [], _ => []
  | w :: ws, size =>
    if size < 1024 then (w % 256) :: serializeIndentLoop ws (size + 1) else []

/-- serialize: the inside-format byte, the clamped delimiter count, the
delimiter flag bytes, then the indent widths from index one. -/
def serialize (s : Scanner) : List Nat :=
  let dc := if s.delimiters.length > 255 then 255 else s.delimiters.length
  (if s.insideFString then 1 else 0) :: dc ::
    ((s.delimiters.take dc).map (fun d => d % 256) ++
      serializeIndentLoop (s.indents.drop 1) (2 + dc))

/-- deserialize: reset the state, re-seed the indent stack with 0, then read
the buffer back. -/
def deserialize (buf : List Nat) : Scanner :=
  if buf.isEmpty then ⟨[0], [], false⟩
  else
    let f := buf.headD 0 != 0
    let dc := (buf.drop 1).headD 0
    ⟨0 :: buf.drop (2 + dc), (buf.drop 2).take dc, f⟩

/-- C1: for every line analyzed by the subprocess detector that reaches the
final decision block, a strong Python signal (assignment, comparison, call
parens, subscript, attribute, or function-macro call) forces NONE; otherwise
any shell signal (flag, pipe, redirect, environment argument, or subprocess
macro) forces SUBPROCESS; otherwise the result is SUBPROCESS exactly when the
first identifier is a known shell command, and NONE in all remaining cases. -/
theorem C1_detect_decision (fl : ScanFlags) (identKnown : Bool) :
    (detectDecision fl identKnown = .NONE ↔
      (strongPythonSignal fl || (!shellSignal fl && !identKnown)) = true) ∧
    (detectDecision fl identKnown = .SUBPROCESS ↔
      (!strongPythonSignal fl && (shellSignal fl || identKnown)) = true) := by
  obtain ⟨a, b, c, d, e, f, g, h, i, j, k⟩ := fl
  revert a b c d e f g h i j k identKnown
  decide

/-! Serialization lemmas. -/

theorem map_mod_eq_self (l : List Nat) (h : ∀ x ∈ l, x < 256) :
    l.map (fun w => w % 256) = l := by
  induction l with
  | nil => rfl
  | cons a t ih =>
    have ha : a % 256 = a := Nat.mod_eq_of_lt (h a (by simp))
    have ht : ∀ x ∈ t, x < 256 := fun x hx => h x (by simp [hx])
    simp [ha, ih ht]

theorem serializeIndentLoop_eq (ws : List Nat) (size : Nat) :
    serializeIndentLoop ws size = (ws.take (1024 - size)).map (fun w => w % 256) := by
  induction ws generalizing size with
  | nil => simp [serializeIndentLoop]
  | cons w ws ih =>
    by_cases h : size < 1024
    · rw [serializeIndentLoop, if_pos h, ih]
      have h2 : 1024 - size = (1024 - (size + 1)) + 1 := by omega
      rw [h2]
      simp
    · rw [serializeIndentLoop, if_neg h]
      have h2 : 1024 - size = 0 := by omega
      simp [h2]

/-- Modelled from the spec for comparison: the serializer as the
specification words it, with each indent width clamped to 255 instead of
reduced modulo 256. -/
def serialize_spec (s : Scanner) : List Nat :=
  let dc := if s.delimiters.length > 255 then 255 else s.delimiters.length
  (if s.insideFString then 1 else 0) :: dc ::
    ((s.delimiters.take dc).map (fun d => d % 256) ++
      ((s.indents.drop 1).take (1024 - (2 + dc))).map (fun w => min w 255))

/-- C9 counterexample: on the reachable state with indent stack 0, 256 the
serializer writes the width byte 0 (truncation modulo 256), not the clamped
byte 255 that the claim describes. -/
theorem C9_cex :
    serialize ⟨[0, 256], [], false⟩ = [0, 0, 0] ∧
    serialize_spec ⟨[0, 256], [], false⟩ = [0, 0, 255] ∧
    serialize ⟨[0, 256], [], false⟩ ≠ serialize_spec ⟨[0, 256], [], false⟩ := by
  decide

/-- C9 (amended): serialize writes the delimiter-stack size clamped to 255
(silently dropping the entries above the clamp), one byte per delimiter,
then the indent-stack entries starting from index 1 as one byte per width
with each width reduced modulo 256 (not clamped), truncated at the
1024-byte serialization buffer limit; deserialize always re-seeds the
indent stack with a leading 0. -/
theorem C9_serialize_layout (s : Scanner) :
    serialize s =
      (if s.insideFString then 1 else 0) ::
      min s.delimiters.length 255 ::
      ((s.delimiters.take (min s.delimiters.length 255)).map (fun d => d % 256) ++
        ((s.indents.drop 1).take (1022 - min s.delimiters.length 255)).map
          (fun w => w % 256)) ∧
    ∀ buf : List Nat, ∃ t, (deserialize buf).indents = 0 :: t := by
  constructor
  · have hdc : (if s.delimiters.length > 255 then 255 else s.delimiters.length) =
        min s.delimiters.length 255 := by
      rw [Nat.min_def]; split <;> split <;> omega
    rw [serialize]
    simp only [hdc]
    rw [serializeIndentLoop_eq]
    have h2 : 1024 - (2 + min s.delimiters.length 255) =
        1022 - min s.delimiters.length 255 := by omega
    rw [h2]
  · intro buf
    refine ⟨(deserialize buf).indents.tail, ?_⟩
    by_cases h : buf.isEmpty
    · simp [deserialize, h]
    · simp [deserialize, h]

/-- C3 counterexample: the state with indent stack 0, 256 is reachable by a
single scan from the initial state (a newline followed by 32 tabs), yet
serialize-then-deserialize corrupts it to 0, 0 and the corrupted state
produces a different scan result (INDENT instead of DEDENT) on a suffix. -/
theorem C3_cex :
    (scan { vNone with indent := true } initScanner
        (mkLx ('\n' :: List.replicate 32 '\t' ++ [ 'x']))).2.1 =
      ⟨[0, 256], [], false⟩ ∧
    deserialize (serialize ⟨[0, 256], [], false⟩) = ⟨[0, 0], [], false⟩ ∧
    (scan { vNone with indent := true } ⟨[0, 256], [], false⟩ (mkLx (strL "\n x"))).1 =
      some .DEDENT ∧
    (scan { vNone with indent := true } (deserialize (serialize ⟨[0, 256], [], false⟩))
        (mkLx (strL "\n x"))).1 = some .INDENT := by
  refine ⟨by decide, by decide, by decide, by decide⟩

/-- C3 (amended): serialize followed by deserialize reconstructs the state
exactly for every state whose indent widths above the bottom are below 256,
whose delimiter stack holds at most 255 entries below 256, and whose
serialized form fits the 1024-byte buffer; a reachable state with an indent
width of 256 or more is corrupted by the byte truncation. -/
theorem C3_roundtrip (s : Scanner) (rest : List Nat)
    (h1 : s.indents = 0 :: rest)
    (h2 : ∀ w ∈ rest, w < 256)
    (h3 : s.delimiters.length ≤ 255)
    (h4 : ∀ d ∈ s.delimiters, d < 256)
    (h5 : rest.length ≤ 1022 - s.delimiters.length) :
    deserialize (serialize s) = s := by
  obtain ⟨inds, dels, f⟩ := s
  simp only at h1 h3 h4 h5
  subst h1
  have hmin : min dels.length 255 = dels.length := by omega
  have hser : serialize ⟨0 :: rest, dels, f⟩ =
      (if f then 1 else 0) :: dels.length :: (dels ++ rest) := by
    rw [(C9_serialize_layout ⟨0 :: rest, dels, f⟩).1]
    simp only [hmin]
    rw [List.take_length, map_mod_eq_self dels h4]
    have htake : rest.take (1022 - dels.length) = rest := List.take_of_length_le h5
    simp only [List.drop_succ_cons, List.drop_zero, htake, map_mod_eq_self rest h2]
  rw [hser]
  rw [deserialize]
  rw [if_neg (by simp)]
  simp only [List.headD_cons, List.drop_succ_cons, List.drop_zero]
  have h2d : ((if f = true then 1 else 0) :: dels.length :: (dels ++ rest)).drop
      (2 + dels.length) = rest := by
    have hh : 2 + dels.length = dels.length + 1 + 1 := by omega
    rw [hh]
    simp only [List.drop_succ_cons]
    exact List.drop_left dels rest
  rw [h2d, List.take_left]
  cases f <;> simp

/-- C3 witness: a concrete in-range state round-trips to itself. -/
theorem C3_roundtrip_witness :
    deserialize (serialize ⟨[0, 4], [22], true⟩) = ⟨[0, 4], [22], true⟩ :=
  C3_roundtrip ⟨[0, 4], [22], true⟩ [4] (by decide) (by decide) (by decide)
    (by decide) (by decide)

/-! Content loop theorems. -/

theorem endCharD_ne_newline (d : Nat) : endCharD d ≠ some '\n' := by
  unfold endCharD
  split_ifs <;> decide

/-- C8: when the content scan of a non-triple string reaches a newline after
content has been accumulated, the loop returns with no token and an
unchanged state, and a no-token content stage makes the whole scan call
return no token. -/
theorem C8_unterminated_line (delims : List Nat) (insideF : Bool) (d : Nat)
    (fuel : Nat) (l : Lx) (t : List Char)
    (htrip : isTripleD d = false) (hrest : l.rest = '\n' :: t) :
    contentLoopF delims insideF d (fuel + 1) true l = .done none delims insideF l ∧
    ∀ (v : Valid) (s : Scanner) (l0 l2 : Lx) (ds : List Nat) (f : Bool),
      escapeStage v s l0 = .pass →
      contentStage v s l0 = .done none ds f l2 →
      scan v s l0 = (none, { s with delimiters := ds, insideFString := f }, l2) := by
  constructor
  · rw [contentLoopF, contentLoopStep, hrest]
    simp [htrip, endCharD_ne_newline d]
  · intro v s l0 l2 ds f h1 h2
    rw [scan, h1, h2]

/-- C8 witness: a double-quoted non-triple delimiter, content accumulated,
newline ahead. -/
theorem C8_witness :
    contentLoopF [2] false 2 6 true ⟨strL "\nx", 3, 3, none⟩ =
      .done none [2] false ⟨strL "\nx", 3, 3, none⟩ :=
  (C8_unterminated_line [2] false 2 5 ⟨strL "\nx", 3, 3, none⟩ (strL "x")
    (by decide) (by decide)).1

/-- C7 counterexample: in a bytes string the iteration that handles a
backslash followed by N consumes the backslash, the letter, and
unconditionally the character after the letter; on content
backslash-N-quote-quote the closing quote is swallowed as content (the
emitted STRING_CONTENT ends at position 5, one quote remains), whereas a
content run continuing right after the letter would have stopped at the
close quote at position 4. -/
theorem C7_cex :
    (scan { vNone with stringContent := true } ⟨[0], [66], false⟩
        ⟨strL "\\N\"\"", 2, 2, none⟩).1 = some .STRING_CONTENT ∧
    (scan { vNone with stringContent := true } ⟨[0], [66], false⟩
        ⟨strL "\\N\"\"", 2, 2, none⟩).2.2.marked = 5 ∧
    (scan { vNone with stringContent := true } ⟨[0], [66], false⟩
        ⟨strL "\\N\"\"", 2, 2, none⟩).2.2.rest = strL "\"" := by
  refine ⟨by decide, by decide, by decide⟩

/-- C7 (amended): in a bytes (non-raw) string, a backslash whose following
character is N, u, or U is not an escape: the iteration marks the committed
end at the backslash, advances past the backslash, that letter, and
unconditionally the next character (taken as content without inspection),
and continues the content run; a backslash followed by anything else
terminates the current content run, emitting STRING_CONTENT up to the
backslash when content was accumulated and nothing otherwise. -/
theorem C7_bytes_backslash (delims : List Nat) (insideF : Bool) (d : Nat)
    (fuel : Nat) (hc : Bool) (l : Lx) (t : List Char)
    (hbytes : isBytesD d = true) (hraw : isRawD d = false)
    (hrest : l.rest = '\\' :: t) :
    (headIs (fun e => e = 'N' || e = 'u' || e = 'U') t = true →
      contentLoopF delims insideF d (fuel + 1) hc l =
        contentLoopF delims insideF d fuel true (adv (adv (adv (mark l))))) ∧
    (headIs (fun e => e = 'N' || e = 'u' || e = 'U') t = false →
      contentLoopF delims insideF d (fuel + 1) hc l =
        .done (if hc then some .STRING_CONTENT else none) delims insideF
          (adv (mark l))) := by
  have hl1 : (adv (mark l)).rest = t := adv_rest_cons (l := mark l) hrest
  constructor
  · intro hnu
    rw [contentLoopF, contentLoopStep, hrest]
    simp [hraw, hbytes, hl1, hnu]
  · intro hnu
    rw [contentLoopF, contentLoopStep, hrest]
    simp [hraw, hbytes, hl1, hnu]

/-- C7 witness: concrete bytes-string step over backslash-u. -/
theorem C7_witness :
    contentLoopF [66] false 66 4 false ⟨strL "\\uAB", 2, 2, none⟩ =
      contentLoopF [66] false 66 3 true ⟨strL "B", 5, 2, some 2⟩ :=
  (C7_bytes_backslash [66] false 66 3 false ⟨strL "\\uAB", 2, 2, none⟩
    (strL "uAB") (by decide) (by decide) (by decide)).1 (by decide)

/-! Escape interpolation theorems. -/

theorem isEmpty_false_of_ne {l : List Nat} (h : l ≠ []) : l.isEmpty = false := by
  cases l with
  | nil => exact absurd rfl h
  | cons a t => rfl

/-- A valid-symbol vector that puts the scanner in error-recovery mode while
asking for a brace escape. -/
def vEscErr : Valid :=
  { vNone with escapeInterpolation := true, stringContent := true, indent := true }

/-- C6 counterexample: with ESCAPE_INTERPOLATION valid, a format string on
top, and a doubled left brace ahead, the scan emits nothing when the parser
is in error-recovery mode (STRING_CONTENT and INDENT both valid), because
the brace-escape block is additionally gated on not being in
error-recovery mode, a condition the claim omits. -/
theorem C6_cex :
    errMode vEscErr = true ∧
    isFormatD (([18] : List Nat).getLastD 0) = true ∧
    (scan vEscErr ⟨[0], [18], false⟩ (mkLx (strL "\x7b\x7b"))).1 = none := by
  refine ⟨by decide, by decide, by decide⟩

/-- C6 (amended): outside error-recovery mode, when ESCAPE_INTERPOLATION is
valid, the top delimiter is a format string, and the lookahead is a brace:
if the character after the brace equals it, scan consumes both characters,
marks the end after the pair, and emits ESCAPE_INTERPOLATION; if it differs,
scan aborts with no token and no state change. -/
theorem C6_escape_pair (v : Valid) (s : Scanner) (l : Lx) (c : Char) (t : List Char)
    (hv : v.escapeInterpolation = true) (herr : errMode v = false)
    (hne : s.delimiters ≠ []) (hfmt : isFormatD (s.delimiters.getLastD 0) = true)
    (hcbrace : c = '{' ∨ c = '}') (hrest : l.rest = c :: t) :
    (t.head? = some c →
      scan v s l = (some .ESCAPE_INTERPOLATION, s, mark (adv (adv (mark l))))) ∧
    (t.head? ≠ some c →
      scan v s l = (none, s, adv (mark l))) := by
  have hl1 : (adv (mark l)).rest = t := adv_rest_cons (l := mark l) hrest
  have hgate : (v.escapeInterpolation && !s.delimiters.isEmpty &&
      headIs (fun c => c = '{' || c = '}') l.rest && !errMode v) = true := by
    rw [hv, herr, hrest, isEmpty_false_of_ne hne]
    rcases hcbrace with rfl | rfl <;> simp [headIs]
  constructor
  · intro hpair
    have hstage : escapeStage v s l =
        .done (some .ESCAPE_INTERPOLATION) (mark (adv (adv (mark l)))) := by
      rw [escapeStage, if_pos hgate, if_pos hfmt]
      rcases hcbrace with rfl | rfl <;>
        (cases t with
         | nil => simp at hpair
         | cons a t2 =>
           simp only [List.head?_cons, Option.some.injEq] at hpair
           subst hpair
           simp [headIs, hl1, hrest])
    rw [scan, hstage]
  · intro hpair
    have hstage : escapeStage v s l = .done none (adv (mark l)) := by
      rw [escapeStage, if_pos hgate, if_pos hfmt]
      rcases hcbrace with rfl | rfl <;>
        (cases t with
         | nil => simp [headIs, hl1, hrest]
         | cons a t2 =>
           simp only [List.head?_cons, Option.some.injEq, ne_eq] at hpair
           simp [headIs, hl1, hrest, hpair])
    rw [scan, hstage]

/-- C6 witness: the doubled brace in a concrete format string. -/
theorem C6_witness :
    scan { vNone with escapeInterpolation := true } ⟨[0], [18], true⟩
        ⟨strL "\x7b\x7bx", 2, 2, none⟩ =
      (some .ESCAPE_INTERPOLATION, (⟨[0], [18], true⟩ : Scanner),
        mark (adv (adv (mark ⟨strL "\x7b\x7bx", 2, 2, none⟩)))) :=
  (C6_escape_pair { vNone with escapeInterpolation := true } ⟨[0], [18], true⟩
    ⟨strL "\x7b\x7bx", 2, 2, none⟩ '{' (strL "\x7bx") (by decide) (by decide)
    (by decide) (by decide) (Or.inl rfl) (by decide)).1 (by decide)

/-! Stage characterization lemmas: which token kinds each dispatch stage can
emit, and how the layout stage transforms the indent stack. -/

theorem escapeStage_tokens {v : Valid} {s : Scanner} {l l2 : Lx} {t : Option TokenType}
    (h : escapeStage v s l = .done t l2) :
    t = none ∨ t = some .ESCAPE_INTERPOLATION := by
  unfold escapeStage at h
  simp [ite_eq_iff] at h
  tauto

theorem contentLoopF_tokens (delims : List Nat) (insideF : Bool) (d : Nat)
    (fuel : Nat) :
    ∀ (hc : Bool) (l : Lx) (t : Option TokenType) (ds : List Nat) (f : Bool) (l2 : Lx),
      contentLoopF delims insideF d fuel hc l = .done t ds f l2 →
      t = none ∨ t = some .STRING_CONTENT ∨ t = some .STRING_END := by
  induction fuel with
  | zero =>
    intro hc l t ds f l2 h
    rw [contentLoopF] at h
    simp at h
  | succ n ih =>
    intro hc l t ds f l2 h
    rw [contentLoopF, contentLoopStep] at h
    rcases hrest : l.rest with _ | ⟨c, t2⟩ <;> rw [hrest] at h
    · simp at h
    · dsimp only at h
      split_ifs at h <;>
        first
          | (exact ih _ _ _ _ _ _ h)
          | (cases hc <;> simp_all)
          | simp_all

theorem contentStage_tokens {v : Valid} {s : Scanner} {l l2 : Lx}
    {t : Option TokenType} {ds : List Nat} {f : Bool}
    (h : contentStage v s l = .done t ds f l2) :
    t = none ∨ t = some .STRING_CONTENT ∨ t = some .STRING_END := by
  unfold contentStage contentLoop at h
  split_ifs at h
  all_goals first
    | exact contentLoopF_tokens _ _ _ _ _ _ _ _ _ _ h
    | simp at h

theorem layoutEmit_cases {v : Valid} {ind : List Nat} {insideF : Bool}
    {fe : Bool} {il : Nat} {fci : Option Nat} {l : Lx}
    {t : Option TokenType} {ind2 : List Nat} {l2 : Lx}
    (h : layoutEmit v ind insideF fe il fci l = .done t ind2 l2) :
    (t = some .INDENT ∧ v.indent = true ∧ ind2 = ind ++ [il % 65536] ∧
      ∃ cur, ind.getLast? = some cur ∧ cur < il) ∨
    (t = some .DEDENT ∧ ind2 = ind.dropLast ∧
      ∃ cur, ind.getLast? = some cur ∧ il < cur) ∨
    (t = some .NEWLINE ∧ errMode v = false ∧ ind2 = ind) := by
  unfold layoutEmit at h
  by_cases hfe : fe = true
  · rw [if_pos hfe] at h
    cases hlast : ind.getLast? with
    | none =>
      rw [hlast] at h
      dsimp only at h
      split_ifs at h with hnl
      · simp only [Bool.and_eq_true, Bool.not_eq_true'] at hnl
        injection h with ht hind hl
        exact Or.inr (Or.inr ⟨ht.symm, hnl.2, hind.symm⟩)
    | some cur =>
      rw [hlast] at h
      dsimp only at h
      split_ifs at h with h1 h2 h3
      · simp only [Bool.and_eq_true, decide_eq_true_eq] at h1
        injection h with ht hind hl
        exact Or.inl ⟨ht.symm, h1.1, hind.symm, cur, rfl, h1.2⟩
      · simp only [Bool.and_eq_true, decide_eq_true_eq] at h2
        injection h with ht hind hl
        exact Or.inr (Or.inl ⟨ht.symm, hind.symm, cur, rfl, h2.1.1.2⟩)
      · simp only [Bool.and_eq_true, Bool.not_eq_true'] at h3
        injection h with ht hind hl
        exact Or.inr (Or.inr ⟨ht.symm, h3.2, hind.symm⟩)
  · rw [if_neg hfe] at h
    simp at h

theorem layoutStage_cases {v : Valid} {ind : List Nat} {insideF : Bool} {l : Lx}
    {t : Option TokenType} {ind2 : List Nat} {l2 : Lx}
    (h : layoutStage v ind insideF l = .done t ind2 l2) :
    (t = some .INDENT ∧ v.indent = true ∧ ∃ w, ind2 = ind ++ [w % 65536] ∧
      ∃ cur, ind.getLast? = some cur ∧ cur < w) ∨
    (t = some .DEDENT ∧ ind2 = ind.dropLast ∧
      ∃ cur, ind.getLast? = some cur ∧ 0 < cur) ∨
    (t = some .NEWLINE ∧ errMode v = false ∧ ind2 = ind) ∨
    (t = none ∧ ind2 = ind) := by
  unfold layoutStage at h
  cases hlp : layoutLoop v false 0 none (mark l) with
  | abort l3 =>
    rw [hlp] at h
    dsimp only at h
    injection h with ht hind hl
    exact Or.inr (Or.inr (Or.inr ⟨ht.symm, hind.symm⟩))
  | ok fe il fci l3 =>
    rw [hlp] at h
    dsimp only at h
    rcases layoutEmit_cases h with ⟨h1, h2, h3, cur, h4, h5⟩ | ⟨h1, h2, cur, h3, h4⟩ |
      ⟨h1, h2, h3⟩
    · exact Or.inl ⟨h1, h2, il, h3, cur, h4, h5⟩
    · exact Or.inr (Or.inl ⟨h1, h2, cur, h3, by omega⟩)
    · exact Or.inr (Or.inr (Or.inl ⟨h1, h2, h3⟩))

theorem operatorStage_tokens {v : Valid} {l l2 : Lx} {t : TokenType}
    (h : operatorStage v l = .done (some t) l2) :
    t = .LOGICAL_AND ∨ t = .LOGICAL_OR ∨ t = .BACKGROUND_AMP ∨
    t = .KEYWORD_AND ∨ t = .KEYWORD_OR := by
  unfold operatorStage at h
  simp [ite_eq_iff] at h
  tauto

theorem subprocessStage_tokens {v : Valid} {s : Scanner} {fci : Option Nat}
    {l l2 : Lx} {t : Option TokenType} {ds : List Nat} {f : Bool}
    (h : subprocessStage v s fci l = .done t ds f l2) :
    t = some .BLOCK_MACRO_START ∨ t = some .SUBPROCESS_MACRO_START ∨
    t = some .SUBPROCESS_START ∨ t = some .PATH_PREF ∨ t = some .STRING_START := by
  unfold subprocessStage at h
  simp only [ite_eq_iff, reduceCtorEq, SubRes.done.injEq, false_and, and_false,
    or_false, false_or] at h
  tauto

theorem pathStage_tokens {v : Valid} {fci : Option Nat} {l l2 : Lx}
    {t : Option TokenType}
    (h : pathStage v fci l = .done t l2) :
    t = none ∨ t = some .PATH_PREF := by
  unfold pathStage at h
  simp only [ite_eq_iff, reduceCtorEq, PathRes.done.injEq, false_and, and_false,
    or_false, false_or] at h
  tauto

theorem stringStartStage_tokens {v : Valid} {s : Scanner} {fci : Option Nat}
    {l l2 : Lx} {t : Option TokenType} {ds : List Nat} {f : Bool}
    (h : stringStartStage v s fci l = .done t ds f l2) :
    t = none ∨ t = some .STRING_START := by
  unfold stringStartStage at h
  simp only [ite_eq_iff, reduceCtorEq, StrRes.done.injEq, false_and, and_false,
    or_false, false_or] at h
  tauto

theorem escapeStage_errMode {v : Valid} {s : Scanner} {l : Lx}
    (herr : errMode v = true) : escapeStage v s l = .pass := by
  unfold escapeStage
  rw [if_neg (by simp [herr])]

theorem contentStage_errMode {v : Valid} {s : Scanner} {l : Lx}
    (herr : errMode v = true) : contentStage v s l = .pass l := by
  unfold contentStage
  rw [if_neg (by simp [herr])]

/-- An error-recovery-mode valid vector with only the mode-defining kinds. -/
def vErrRec : Valid := { vNone with stringContent := true, indent := true }

/-- C5 counterexample: in error-recovery mode (STRING_CONTENT and INDENT
simultaneously valid) the scanner still emits INDENT for a more deeply
indented line, so layout emission is not fully suppressed. -/
theorem C5_cex :
    errMode vErrRec = true ∧
    (scan vErrRec initScanner (mkLx (strL "\n x"))).1 = some .INDENT := by
  refine ⟨by decide, by decide⟩

/-- C5 (amended): in error-recovery mode the scanner emits neither NEWLINE
nor ESCAPE_INTERPOLATION (the brace-escape block, the string-content scan,
the subprocess dispatch, and the NEWLINE emission are all gated on not
being in error-recovery mode), but INDENT and DEDENT emission is not
suppressed. -/
theorem C5_errMode_suppression (v : Valid) (s : Scanner) (l : Lx)
    (herr : errMode v = true) :
    (scan v s l).1 ≠ some .NEWLINE ∧ (scan v s l).1 ≠ some .ESCAPE_INTERPOLATION := by
  simp only [scan, escapeStage_errMode herr, contentStage_errMode herr]
  cases hlay : layoutStage v s.indents s.insideFString l with
  | done t ind2 l2 =>
    rcases layoutStage_cases hlay with ⟨rfl, -, -⟩ | ⟨rfl, -, -⟩ | ⟨rfl, h2, -⟩ |
      ⟨rfl, -⟩
    · exact ⟨by simp, by simp⟩
    · exact ⟨by simp, by simp⟩
    · rw [herr] at h2
      exact absurd h2 (by simp)
    · exact ⟨by simp, by simp⟩
  | pass fci l2 =>
    cases hop : operatorStage v l2 with
    | done t2 l3 =>
      cases t2 with
      | none => simp [hop]
      | some tk =>
        rcases operatorStage_tokens hop with rfl | rfl | rfl | rfl | rfl <;>
          simp [hop]
    | pass =>
      cases hsub : subprocessStage v s fci l2 with
      | done t3 ds f l3 =>
        rcases subprocessStage_tokens hsub with rfl | rfl | rfl | rfl | rfl <;>
          simp [hop, hsub]
      | pass l3 =>
        cases hpath : pathStage v fci l3 with
        | done t4 l4 =>
          rcases pathStage_tokens hpath with rfl | rfl <;> simp [hop, hsub, hpath]
        | pass =>
          cases hstr : stringStartStage v s fci l3 with
          | done t5 ds f l4 =>
            rcases stringStartStage_tokens hstr with rfl | rfl <;>
              simp [hop, hsub, hpath, hstr]
          | pass => simp [hop, hsub, hpath, hstr]

/-- C5 witness: a concrete error-recovery-mode call. -/
theorem C5_witness :
    (scan vErrRec initScanner (mkLx (strL "x"))).1 ≠ some .NEWLINE ∧
    (scan vErrRec initScanner (mkLx (strL "x"))).1 ≠ some .ESCAPE_INTERPOLATION :=
  C5_errMode_suppression vErrRec initScanner (mkLx (strL "x")) (by decide)

/-- The indent stack invariant: non-empty, bottom element zero, strictly
increasing from bottom (head) to top (last). -/
def IndentInv (il : List Nat) : Prop :=
  il ≠ [] ∧ il.head? = some 0 ∧ il.Chain' (· < ·)

theorem indentInv_push {il : List Nat} {cur w : Nat} (hinv : IndentInv il)
    (hlast : il.getLast? = some cur) (hw : cur < w) : IndentInv (il ++ [w]) := by
  obtain ⟨hne, hhead, hchain⟩ := hinv
  refine ⟨by simp, ?_, ?_⟩
  · rcases il with _ | ⟨a, il2⟩
    · exact absurd rfl hne
    · simpa using hhead
  · rw [List.chain'_append]
    refine ⟨hchain, List.chain'_singleton w, ?_⟩
    intro x hx y hy
    simp at hy
    subst hy
    rw [hlast] at hx
    simp at hx
    subst hx
    exact hw

theorem indentInv_pop {il : List Nat} {cur : Nat} (hinv : IndentInv il)
    (hlast : il.getLast? = some cur) (hpos : 0 < cur) : IndentInv il.dropLast := by
  obtain ⟨hne, hhead, hchain⟩ := hinv
  rcases il with _ | ⟨a, il2⟩
  · exact absurd rfl hne
  rcases il2 with _ | ⟨b, il3⟩
  · simp at hlast hhead
    omega
  · refine ⟨?_, ?_, ?_⟩
    · simp [List.dropLast]
    · simp only [List.head?_cons, Option.some.injEq] at hhead
      simp [List.dropLast, hhead]
    · exact hchain.prefix (List.dropLast_prefix _)

theorem layoutLoopStep_newline (v : Valid)
    (k : Bool → Nat → Option Nat → Lx → LoopRes)
    (fe : Bool) (il : Nat) (fci : Option Nat) (l : Lx) (r : List Char)
    (hr : l.rest = '\n' :: r) :
    layoutLoopStep v k fe il fci l = k true 0 fci (skp l) := by
  simp [layoutLoopStep, hr]

/-- The layout loop on a run of tabs: each tab adds 8 columns, and while the
running width stays below 2 to the 32 no wrap occurs in the accumulator. -/
theorem layoutLoopF_tabs (v : Valid) (n : Nat) :
    ∀ (il : Nat) (fci : Option Nat) (l : Lx) (t : List Char),
      l.rest = List.replicate n '\t' ++ 'x' :: t →
      il + 8 * n < 4294967296 →
      layoutLoopF v (n + 1) true il fci l =
        .ok true (il + 8 * n) fci { l with rest := 'x' :: t, pos := l.pos + n } := by
  induction n with
  | zero =>
    intro il fci l t hr hb
    obtain ⟨r, p, m, f⟩ := l
    simp only [List.replicate, List.nil_append] at hr
    subst hr
    simp [layoutLoopF, layoutLoopStep]
  | succ n ih =>
    intro il fci l t hr hb
    obtain ⟨r, p, m, f⟩ := l
    simp only [List.replicate_succ, List.cons_append] at hr
    subst hr
    have hstep : layoutLoopF v (n + 1 + 1) true il fci
        ⟨'\t' :: (List.replicate n '\t' ++ 'x' :: t), p, m, f⟩ =
        layoutLoopF v (n + 1) true ((il + 8) % 4294967296) fci
          ⟨List.replicate n '\t' ++ 'x' :: t, p + 1, m, f⟩ := by
      simp [layoutLoopF, layoutLoopStep, skp]
    rw [hstep, Nat.mod_eq_of_lt (by omega)]
    rw [ih (il + 8) fci ⟨List.replicate n '\t' ++ 'x' :: t, p + 1, m, f⟩ t rfl
      (by omega)]
    simp only [LoopRes.ok.injEq, Lx.mk.injEq, eq_self_iff_true, true_and,
      and_true]
    omega

/-- C4 counterexample: the indent stack of the source holds 16-bit entries,
so a line of 8192 tabs (width 65536) passes the strictly-greater comparison
against the top 0 but pushes 65536 reduced modulo 2 to the 16, that is 0:
the scan emits INDENT and leaves the stack 0, 0, which is not strictly
increasing, refuting the claimed invariant on a reachable state. -/
theorem C4_cex :
    (scan { vNone with indent := true } initScanner
        (mkLx ('\n' :: (List.replicate 8192 '\t' ++ ['x'])))).1 =
      some TokenType.INDENT ∧
    (scan { vNone with indent := true } initScanner
        (mkLx ('\n' :: (List.replicate 8192 '\t' ++ ['x'])))).2.1.indents =
      [0, 0] ∧
    ¬ IndentInv [0, 0] := by
  have htabs := layoutLoopF_tabs { vNone with indent := true } 8192 0 none
    ⟨List.replicate 8192 '\t' ++ ['x'], 1, 0, none⟩ [] rfl (by norm_num)
  have hloop : layoutLoop { vNone with indent := true } false 0 none
      (mark (mkLx ('\n' :: (List.replicate 8192 '\t' ++ ['x'])))) =
      .ok true 65536 none ⟨['x'], 8193, 0, none⟩ := by
    unfold layoutLoop
    have hlen : (mark (mkLx ('\n' :: (List.replicate 8192 '\t' ++
        ['x'])))).rest.length = 8194 := by
      show ('\n' :: (List.replicate 8192 '\t' ++ ['x'])).length = 8194
      rw [List.length_cons, List.length_append, List.length_replicate]
      rfl
    have hrest : (mark (mkLx ('\n' :: (List.replicate 8192 '\t' ++
        ['x'])))).rest = '\n' :: (List.replicate 8192 '\t' ++ ['x']) := rfl
    rw [hlen, show (8194 : Nat) = 8193 + 1 from rfl, layoutLoopF_succ,
      layoutLoopStep_newline _ _ _ _ _ _ _ hrest]
    have hskp : skp (mark (mkLx ('\n' :: (List.replicate 8192 '\t' ++
        ['x'])))) = ⟨List.replicate 8192 '\t' ++ ['x'], 1, 0, none⟩ := rfl
    rw [hskp, show (8193 : Nat) = 8192 + 1 from rfl, htabs]
  have hlay : layoutStage { vNone with indent := true } initScanner.indents
      initScanner.insideFString
      (mkLx ('\n' :: (List.replicate 8192 '\t' ++ ['x']))) =
      .done (some .INDENT) [0, 0] ⟨['x'], 8193, 0, none⟩ := by
    show layoutStage { vNone with indent := true } [0] false
      (mkLx ('\n' :: (List.replicate 8192 '\t' ++ ['x']))) =
      .done (some .INDENT) [0, 0] ⟨['x'], 8193, 0, none⟩
    unfold layoutStage
    rw [hloop]
    simp [layoutEmit]
  have hesc : escapeStage { vNone with indent := true } initScanner
      (mkLx ('\n' :: (List.replicate 8192 '\t' ++ ['x']))) = .pass := rfl
  have hcont : contentStage { vNone with indent := true } initScanner
      (mkLx ('\n' :: (List.replicate 8192 '\t' ++ ['x']))) =
      .pass (mkLx ('\n' :: (List.replicate 8192 '\t' ++ ['x']))) := rfl
  refine ⟨?_, ?_, ?_⟩
  · simp only [scan, hesc, hcont, hlay]
  · simp only [scan, hesc, hcont, hlay]
  · intro h
    exact absurd h.2.2 (by simp [List.chain'_cons])

/-- C4 (amended): every scan call keeps the indent stack non-empty with
bottom 0; a scan that does not emit INDENT preserves the full invariant
(strictly increasing included); an INDENT emission appends the computed
width reduced modulo 2 to the 16 (the 16-bit store of the source), where
the unreduced width strictly exceeds the previous top, so the strictly
increasing invariant is preserved whenever that width is below 2 to the 16;
and a DEDENT emission only pops the top.  The original claim asserted the
strict increase unconditionally, which the 16-bit wrap refutes. -/
theorem C4_indent_invariant (v : Valid) (s : Scanner) (l : Lx)
    (hinv : IndentInv s.indents) :
    ((scan v s l).1 ≠ some .INDENT → IndentInv (scan v s l).2.1.indents) ∧
    ((scan v s l).1 = some .INDENT →
      ∃ w, (scan v s l).2.1.indents = s.indents ++ [w % 65536] ∧
        (∃ cur, s.indents.getLast? = some cur ∧ cur < w) ∧
        (w < 65536 → IndentInv ((scan v s l).2.1.indents))) ∧
    ((scan v s l).1 = some .DEDENT →
      (scan v s l).2.1.indents = s.indents.dropLast) := by
  simp only [scan]
  cases hesc : escapeStage v s l with
  | done t l2 =>
    rcases escapeStage_tokens hesc with rfl | rfl <;>
      (try simp only [hesc]) <;> exact ⟨fun _ => hinv, by simp, by simp⟩
  | pass =>
  cases hcont : contentStage v s l with
  | done t ds f l2 =>
    rcases contentStage_tokens hcont with rfl | rfl | rfl <;>
      (try simp only [hesc, hcont]) <;> exact ⟨fun _ => hinv, by simp, by simp⟩
  | pass l1 =>
  cases hlay : layoutStage v s.indents s.insideFString l1 with
  | done t ind2 l2 =>
    try simp only [hesc, hcont, hlay]
    rcases layoutStage_cases hlay with ⟨rfl, hvi, w, rfl, cur, hcur, hlt⟩ |
        ⟨rfl, rfl, cur, hcur, hpos⟩ | ⟨rfl, herr2, rfl⟩ | ⟨rfl, rfl⟩
    · refine ⟨fun hne => absurd rfl hne,
        fun _ => ⟨w, rfl, ⟨cur, hcur, hlt⟩, ?_⟩, by simp⟩
      intro hw
      rw [Nat.mod_eq_of_lt hw]
      exact indentInv_push hinv hcur (by omega)
    · exact ⟨fun _ => indentInv_pop hinv hcur hpos, by simp, fun _ => rfl⟩
    · exact ⟨fun _ => hinv, by simp, by simp⟩
    · exact ⟨fun _ => hinv, by simp, by simp⟩
  | pass fci l2 =>
  try simp only [hlay]
  cases hop : operatorStage v l2 with
  | done t2 l3 =>
    cases t2 with
    | none =>
      try simp only [hop]
      exact ⟨fun _ => hinv, by simp, by simp⟩
    | some tk =>
      rcases operatorStage_tokens hop with rfl | rfl | rfl | rfl | rfl <;>
        (try simp only [hop]) <;> exact ⟨fun _ => hinv, by simp, by simp⟩
  | pass =>
  cases hsub : subprocessStage v s fci l2 with
  | done t3 ds f l3 =>
    rcases subprocessStage_tokens hsub with rfl | rfl | rfl | rfl | rfl <;>
      (try simp only [hop, hsub]) <;> exact ⟨fun _ => hinv, by simp, by simp⟩
  | pass l3 =>
  cases hpath : pathStage v fci l3 with
  | done t4 l4 =>
    rcases pathStage_tokens hpath with rfl | rfl <;>
      (try simp only [hop, hsub, hpath]) <;> exact ⟨fun _ => hinv, by simp, by simp⟩
  | pass =>
  cases hstr : stringStartStage v s fci l3 with
  | done t5 ds f l4 =>
    rcases stringStartStage_tokens hstr with rfl | rfl <;>
      (try simp only [hop, hsub, hpath, hstr]) <;>
      exact ⟨fun _ => hinv, by simp, by simp⟩
  | pass =>
    try simp only [hop, hsub, hpath, hstr]
    exact ⟨fun _ => hinv, by simp, by simp⟩

/-- C4 witness: a concrete non-wrapping INDENT push from the initial state. -/
theorem C4_witness :
    ((scan { vNone with indent := true } initScanner
        (mkLx (strL "\n  x"))).1 ≠ some .INDENT →
      IndentInv (scan { vNone with indent := true } initScanner
        (mkLx (strL "\n  x"))).2.1.indents) ∧
    ((scan { vNone with indent := true } initScanner
        (mkLx (strL "\n  x"))).1 = some .INDENT →
      ∃ w, (scan { vNone with indent := true } initScanner
          (mkLx (strL "\n  x"))).2.1.indents =
        initScanner.indents ++ [w % 65536] ∧
        (∃ cur, initScanner.indents.getLast? = some cur ∧ cur < w) ∧
        (w < 65536 → IndentInv ((scan { vNone with indent := true }
          initScanner (mkLx (strL "\n  x"))).2.1.indents))) ∧
    ((scan { vNone with indent := true } initScanner
        (mkLx (strL "\n  x"))).1 = some .DEDENT →
      (scan { vNone with indent := true } initScanner
        (mkLx (strL "\n  x"))).2.1.indents = initScanner.indents.dropLast) :=
  C4_indent_invariant { vNone with indent := true } initScanner
    (mkLx (strL "\n  x")) ⟨by decide, by decide, by simp [initScanner]⟩


/-- C2 counterexample: on the line if"abc" the detector returns NONE, yet the
same scan call (with SUBPROCESS_START and STRING_START valid) still emits a
STRING_START token and moves the committed position to 3, refuting the claim
that a NONE result makes the scan call emit no token with the committed
position unchanged. -/
theorem C2_cex :
    (detect_subprocess_line (mkLx (strL "if\"abc\"\n"))).1.result =
        DetectResult.NONE ∧
    (scan { vNone with subprocessStart := true, stringStart := true }
        initScanner (mkLx (strL "if\"abc\"\n"))).1 =
      some TokenType.STRING_START ∧
    (scan { vNone with subprocessStart := true, stringStart := true }
        initScanner (mkLx (strL "if\"abc\"\n"))).2.2.marked = 3 := by
  refine ⟨rfl, ?_, ?_⟩ <;> decide

/-- C2 (amended): the subprocess detector itself is a pure peek: the lexer it
returns has its committed mark at the entry position, and whenever the
subprocess stage emits SUBPROCESS_START the token is zero-width at the
detector entry position and the delimiter stack is unchanged.  The original
claim additionally asserted that a NONE result makes the whole scan call
emit nothing; that part is refuted by the counterexample, since the scan
falls through to the path-prefix and string-start stages. -/
theorem C2_detector_pure_peek (v : Valid) (s : Scanner) (fci : Option Nat)
    (l : Lx) :
    (detect_subprocess_line l).2.marked = l.pos ∧
    (∀ ds f l2, subprocessStage v s fci l =
        .done (some .SUBPROCESS_START) ds f l2 →
      l2.marked = l.pos ∧ ds = s.delimiters) := by
  refine ⟨rfl, ?_⟩
  intro ds f l2 h
  unfold subprocessStage at h
  simp only [ite_eq_iff, reduceCtorEq, SubRes.done.injEq, Option.some.injEq,
    false_and, and_false, or_false, false_or] at h
  obtain ⟨-, -, -, -, -, hds, -, hl2⟩ := h
  subst hl2
  exact ⟨rfl, hds.symm⟩

/-- C2 witness: on the line ls -la the subprocess stage emits a zero-width
SUBPROCESS_START with the mark still at position 0. -/
theorem C2_witness :
    (⟨strL "\n", 6, 0, some 0⟩ : Lx).marked = (mkLx (strL "ls -la\n")).pos ∧
    initScanner.delimiters = initScanner.delimiters :=
  (C2_detector_pure_peek { vNone with subprocessStart := true } initScanner
      none (mkLx (strL "ls -la\n"))).2 initScanner.delimiters
    initScanner.insideFString ⟨strL "\n", 6, 0, some 0⟩ (by decide)


/-! Keyword spelling predicates for the operator stage: and (resp. or)
followed by a non-identifier character, read from the tail after the first
letter. -/

def spellsKwAnd (t : List Char) : Bool :=
  match t with
  | 'n' :: 'd' :: r => !(headIs (fun c => isAlnumAscii c || c = '_') r)
  | _ => false

def spellsKwOr (t : List Char) : Bool :=
  match t with
  | 'r' :: r => !(headIs (fun c => isAlnumAscii c || c = '_') r)
  | _ => false

theorem opStage_kwAnd_none {v : Valid} {l : Lx} {t : List Char}
    (hr : l.rest = 'a' :: t) (hv : v.keywordAnd = true)
    (hsp : spellsKwAnd t = false) :
    ∃ l3, operatorStage v l = .done none l3 := by
  rcases t with _ | ⟨c1, t1⟩
  · exact ⟨adv l, by simp [operatorStage, hr, hv, headIs, adv_rest_tail]⟩
  · by_cases h1 : c1 = 'n'
    · subst h1
      rcases t1 with _ | ⟨c2, t2⟩
      · exact ⟨adv (adv l),
          by simp [operatorStage, hr, hv, headIs, adv_rest_tail]⟩
      · by_cases h2 : c2 = 'd'
        · subst h2
          rcases t2 with _ | ⟨c3, t3⟩
          · simp [spellsKwAnd, headIs] at hsp
          · have h4 : isAlnumAscii c3 = false → c3 = '_' := by
              simpa [spellsKwAnd, headIs] using hsp
            refine ⟨adv (adv (adv l)), ?_⟩
            simp [operatorStage, hr, hv, headIs, adv_rest_tail]
            exact h4
        · exact ⟨adv (adv l),
            by simp [operatorStage, hr, hv, headIs, adv_rest_tail, h2]⟩
    · exact ⟨adv l, by simp [operatorStage, hr, hv, headIs, adv_rest_tail, h1]⟩

theorem opStage_kwOr_none {v : Valid} {l : Lx} {t : List Char}
    (hr : l.rest = 'o' :: t) (hv : v.keywordOr = true)
    (hsp : spellsKwOr t = false) :
    ∃ l3, operatorStage v l = .done none l3 := by
  rcases t with _ | ⟨c1, t1⟩
  · exact ⟨adv l, by simp [operatorStage, hr, hv, headIs, adv_rest_tail]⟩
  · by_cases h1 : c1 = 'r'
    · subst h1
      rcases t1 with _ | ⟨c2, t2⟩
      · simp [spellsKwOr, headIs] at hsp
      · have h4 : isAlnumAscii c2 = false → c2 = '_' := by
          simpa [spellsKwOr, headIs] using hsp
        refine ⟨adv (adv l), ?_⟩
        simp [operatorStage, hr, hv, headIs, adv_rest_tail]
        exact h4
    · exact ⟨adv l, by simp [operatorStage, hr, hv, headIs, adv_rest_tail, h1]⟩

theorem opStage_amp_none {v : Valid} {l : Lx} {t : List Char}
    (hr : l.rest = '&' :: t)
    (hvg : (v.logicalAnd || v.logicalOr || v.backgroundAmp) = true)
    (hba : v.backgroundAmp = false) (hnext : t.head? ≠ some '&') :
    ∃ l3, operatorStage v l = .done none l3 := by
  refine ⟨adv l, ?_⟩
  have hor : v.logicalAnd = true ∨ v.logicalOr = true := by
    rcases Bool.eq_false_or_eq_true v.logicalAnd with h5 | h5
    · exact Or.inl h5
    · rcases Bool.eq_false_or_eq_true v.logicalOr with h6 | h6
      · exact Or.inr h6
      · rw [h5, h6, hba] at hvg; simp at hvg
  rcases t with _ | ⟨c, t1⟩
  · simp [operatorStage, hr, hvg, hba, headIs, adv_rest_tail]
    intro h5
    rcases hor with h6 | h6
    · rw [h5] at h6; exact absurd h6 (by simp)
    · exact h6
  · have hc : (decide (c = '&')) = false := by simpa using hnext
    simp [operatorStage, hr, hvg, hba, headIs, adv_rest_tail, hc]
    intro h5
    rcases hor with h6 | h6
    · rw [h5] at h6; exact absurd h6 (by simp)
    · exact h6


/-- C10 counterexample: with only SUBPROCESS_START valid, the lookahead is an
ampersand not followed by another ampersand and BACKGROUND_AMP is invalid,
yet scan still attempts subprocess detection and emits SUBPROCESS_START
rather than returning no token: the operator stage only runs (and thus only
short-circuits) when one of its own tokens is valid. -/
theorem C10_cex :
    ({ vNone with subprocessStart := true } : Valid).backgroundAmp = false ∧
    headIs (fun c => c = '&') (strL "&\n") = true ∧
    (strL "&\n").tail.head? ≠ some '&' ∧
    (scan { vNone with subprocessStart := true } initScanner
        (mkLx (strL "&\n"))).1 = some TokenType.SUBPROCESS_START := by
  exact ⟨rfl, rfl, by decide, by decide⟩

/-- C10 (amended): when the escape, content and layout stages all pass and
one of the operator-stage failure shapes holds (KEYWORD_AND valid with
lookahead a but the input does not spell the keyword and followed by a
non-identifier character; KEYWORD_OR valid with lookahead o but not spelling
or; or one of LOGICAL_AND, LOGICAL_OR, BACKGROUND_AMP valid with lookahead
an ampersand not followed by another one while BACKGROUND_AMP is invalid),
the operator stage returns a no-token result and scan short-circuits there:
it returns no token, leaves the scanner state unchanged, and the subprocess,
path-prefix and string-start stages are never consulted.  The original claim
asserted this without requiring an operator token to be valid in the
ampersand case; C10_cex refutes that reading. -/
theorem C10_operator_short_circuit (v : Valid) (s : Scanner) (l l1 l2 : Lx)
    (fci : Option Nat)
    (hesc : escapeStage v s l = .pass)
    (hcont : contentStage v s l = .pass l1)
    (hlay : layoutStage v s.indents s.insideFString l1 = .pass fci l2)
    (hcond :
      (v.keywordAnd = true ∧ headIs (fun c => c = 'a') l2.rest = true ∧
        spellsKwAnd l2.rest.tail = false) ∨
      (v.keywordOr = true ∧ headIs (fun c => c = 'o') l2.rest = true ∧
        spellsKwOr l2.rest.tail = false) ∨
      ((v.logicalAnd || v.logicalOr || v.backgroundAmp) = true ∧
        v.backgroundAmp = false ∧ headIs (fun c => c = '&') l2.rest = true ∧
        l2.rest.tail.head? ≠ some '&')) :
    ∃ l3, operatorStage v l2 = .done none l3 ∧ scan v s l = (none, s, l3) := by
  have hop : ∃ l3, operatorStage v l2 = .done none l3 := by
    rcases hcond with ⟨hv, hh, hsp⟩ | ⟨hv, hh, hsp⟩ | ⟨hvg, hba, hh, hnext⟩
    · rcases hr : l2.rest with _ | ⟨c, t⟩
      · rw [hr] at hh; exact absurd hh (by simp [headIs])
      · rw [hr] at hh hsp
        have hc : c = 'a' := by simpa [headIs] using hh
        subst hc
        exact opStage_kwAnd_none hr hv (by simpa using hsp)
    · rcases hr : l2.rest with _ | ⟨c, t⟩
      · rw [hr] at hh; exact absurd hh (by simp [headIs])
      · rw [hr] at hh hsp
        have hc : c = 'o' := by simpa [headIs] using hh
        subst hc
        exact opStage_kwOr_none hr hv (by simpa using hsp)
    · rcases hr : l2.rest with _ | ⟨c, t⟩
      · rw [hr] at hh; exact absurd hh (by simp [headIs])
      · rw [hr] at hh hnext
        have hc : c = '&' := by simpa [headIs] using hh
        subst hc
        exact opStage_amp_none hr hvg hba (by simpa using hnext)
  obtain ⟨l3, hop⟩ := hop
  refine ⟨l3, hop, ?_⟩
  simp only [scan, hesc, hcont, hlay, hop]

/-- C10 witness: with LOGICAL_OR valid on a line starting with a lone
ampersand, the operator stage consumes it and scan returns no token with the
scanner state unchanged. -/
theorem C10_witness :
    ∃ l3, operatorStage { vNone with logicalOr := true }
        (mkLx (strL "&x\n")) = .done none l3 ∧
      scan { vNone with logicalOr := true } initScanner
        (mkLx (strL "&x\n")) = (none, initScanner, l3) :=
  C10_operator_short_circuit { vNone with logicalOr := true } initScanner
    (mkLx (strL "&x\n")) (mkLx (strL "&x\n")) (mkLx (strL "&x\n")) none
    (by decide) (by decide) (by decide)
    (Or.inr (Or.inr ⟨by decide, by decide, by decide, by decide⟩))

end XonshSpec
